import Mathlib

/-!
Verification of the blitz-croco-words word pipeline: a shallow embedding of
the extraction, normalization, storage and selection logic of
`src/helpers.py`, `src/main.py` and `src/server.py`, with theorems checking
the design document's claims against it.

Python strings are modelled as Lean `String`s; timestamps as `Nat`; the
SQLite tables as lists of row structures.  `ORDER BY RANDOM()` is modelled
by passing the permutation the database chose as an explicit argument.
The external Yandex speller is modelled as an arbitrary function
`svc : String → String` from the submitted batch to the corrected text.
-/

namespace Croco

/-- Python `str` whitespace test for the characters that occur in this
domain: space, tab, newline, carriage return, vertical tab, form feed. -/
def pyIsSpace (c : Char) : Bool :=
  c.toNat = 32 || c.toNat = 9 || c.toNat = 10 || c.toNat = 13 ||
    c.toNat = 11 || c.toNat = 12

/-- Python `str.strip()` on a character list: drop whitespace from both ends. -/
def pyStripList (l : List Char) : List Char :=
  ((l.dropWhile pyIsSpace).reverse.dropWhile pyIsSpace).reverse

/-- Python `str.strip()`. -/
def pyStrip (s : String) : String := String.mk (pyStripList s.toList)

/-- Worker for `pySplit`: `acc` is the current token, reversed. -/
def pySplitAux : List Char → List Char → List String
  | [], acc => if acc.isEmpty then [] else [String.mk acc.reverse]
  | c :: cs, acc =>
    if pyIsSpace c then
      if acc.isEmpty then pySplitAux cs []
      else String.mk acc.reverse :: pySplitAux cs []
    else pySplitAux cs (c :: acc)

/-- Python `str.split()` with no argument: split on whitespace runs,
discarding empty tokens. -/
def pySplit (s : String) : List String := pySplitAux s.toList []

/-- Code-point comparison of characters, as Python compares strings. -/
def charListLeb : List Char → List Char → Bool
  | [], _ => true
  | _ :: _, [] => false
  | a :: as, b :: bs => if a = b then charListLeb as bs else a.toNat < b.toNat

/-- Python `<=` on strings: lexicographic by code point. -/
def strLeb (a b : String) : Bool := charListLeb a.toList b.toList

/-- Insert a string into a sorted list (worker for `sortStrings`). -/
def insertSorted (a : String) : List String → List String
  | [] => [a]
  | b :: bs => if strLeb a b then a :: b :: bs else b :: insertSorted a bs

/-- Insertion sort by `strLeb`; the exact algorithm is irrelevant, only that
it returns a permutation sorted the way Python's `sorted` orders strings. -/
def sortStrings : List String → List String
  | [] => []
  | a :: as => insertSorted a (sortStrings as)

/-- Python `sorted(set(l))`: the distinct elements of `l` in sorted order. -/
def pySortedSet (l : List String) : List String := sortStrings l.dedup

/-- The reserved marker token rejected by `helpers.is_not_valid`
(src/helpers.py line 18). -/
def markerToken : String := "СУПЕРКРОКО"

/-- Python `pat in s` substring containment on character lists. -/
def hasSubstring : List Char → List Char → Bool
  | pat, [] => pat.isEmpty
  | pat, c :: t => pat.isPrefixOf (c :: t) || hasSubstring pat t

/-- helpers.is_not_valid (src/helpers.py lines 17-18):
`' ' in text or '-' in text or ':' in text or 'СУПЕРКРОКО' in text`. -/
def is_not_valid (text : String) : Bool :=
  text.toList.contains ' ' || text.toList.contains '-' ||
    text.toList.contains ':' || hasSubstring markerToken.toList text.toList

/-- A pptx shape as the extractor consumes it: whether it carries a text
frame, and its raw text. -/
structure Shape where
  hasTextFrame : Bool
  text : String
deriving DecidableEq

/-- helpers.get_words_form_file (src/helpers.py lines 21-39): iterate slides
then shapes, skip shapes without a text frame, skip invalid texts, append
the stripped text.  A presentation is its list of slides, each a list of
shapes. -/
def get_words_form_file (prs : List (List Shape)) : List String :=
  prs.foldl
    (fun result slide =>
      slide.foldl
        (fun result shape =>
          if shape.hasTextFrame = false then result
          else if is_not_valid shape.text then result
          else result ++ [pyStrip shape.text])
        result)
    []

/-- helpers.check_spelling (src/helpers.py lines 42-52), instrumented with
the number of times the external speller service is invoked: 0 on the empty
short-circuit branch, 1 on the batch-submission branch.  `svc` maps the
submitted batch to the service's corrected text. -/
def check_spellingN (svc : String → String) (words : List String) :
    List String × Nat :=
  if words.isEmpty then ([], 0)
  else (pySplit (svc (String.intercalate " " words)), 1)

/-- helpers.check_spelling: the corrected token list alone. -/
def check_spelling (svc : String → String) (words : List String) :
    List String :=
  (check_spellingN svc words).1

/-- Membership in the character class of server.clean_word's regex
`[A-Za-zА-Яа-яЁё]` (src/server.py line 457): Latin letters 65-90 and 97-122,
the contiguous Cyrillic block А..я 1040-1103, and Ё 1025, ё 1105. -/
def isAllowedChar (c : Char) : Bool :=
  (65 ≤ c.toNat && c.toNat ≤ 90) || (97 ≤ c.toNat && c.toNat ≤ 122) ||
    (1040 ≤ c.toNat && c.toNat ≤ 1103) || c.toNat = 1025 || c.toNat = 1105

/-- server.clean_word (src/server.py lines 456-457):
`re.sub(r"[^A-Za-zА-Яа-яЁё]+", "", word).strip()`.  Replacing every run of
disallowed characters by the empty string is filtering by the class. -/
def clean_word (word : String) : String :=
  pyStrip (String.mk (word.toList.filter isAllowedChar))

/-- server.normalize_words (src/server.py lines 448-453), instrumented with
the speller invocation count: clean and de-duplicate the input, spell-check
the sorted batch, clean and de-duplicate the response. -/
def normalize_wordsN (svc : String → String) (words : List String) :
    List String × Nat :=
  let uniqueWords := pySortedSet ((words.map clean_word).filter (fun w => w != ""))
  let checked := check_spellingN svc uniqueWords
  (pySortedSet ((checked.1.map clean_word).filter (fun w => w != "")), checked.2)

/-- server.normalize_words: the resulting token list alone. -/
def normalize_words (svc : String → String) (words : List String) :
    List String :=
  (normalize_wordsN svc words).1

/-- A row of the `words` table: `id INTEGER PRIMARY KEY`,
`word TEXT NOT NULL UNIQUE` (created_at plays no role in the claims). -/
structure WordRow where
  id : Nat
  word : String
deriving DecidableEq

/-- A row of the `user_word_usage` table:
`(user_id, word_id)` primary key with `last_used_at`. -/
structure UsageRow where
  userId : Nat
  wordId : Nat
  lastUsedAt : Nat
deriving DecidableEq

/-- The word-related state of the SQLite store: the `words` table, the
`user_word_usage` table, and the next AUTOINCREMENT id. -/
structure WordStore where
  words : List WordRow
  usage : List UsageRow
  nextId : Nat
deriving DecidableEq

/-- The `word` column of the `words` table. -/
def wordsOf (st : WordStore) : List String := st.words.map (fun r => r.word)

/-- server.insert_words (src/server.py lines 468-479): for each word
`INSERT OR IGNORE` under the UNIQUE(word) constraint, counting the rows
whose `rowcount` was 1. -/
def insert_words : WordStore → List String → WordStore × Nat
  | st, [] => (st, 0)
  | st, w :: ws =>
    if w ∈ wordsOf st then insert_words st ws
    else
      let st' : WordStore :=
        { st with words := st.words ++ [⟨st.nextId, w⟩], nextId := st.nextId + 1 }
      let p := insert_words st' ws
      (p.1, p.2 + 1)

/-- Proof-side abbreviation for the store after `INSERT` appended one row
(the store `insert_words` recurses on in its new-word branch). -/
def addRow (st : WordStore) (w : String) : WordStore :=
  { st with words := st.words ++ [⟨st.nextId, w⟩], nextId := st.nextId + 1 }

/-- One `INSERT INTO user_word_usage … ON CONFLICT(user_id, word_id) DO
UPDATE SET last_used_at = excluded.last_used_at` (src/server.py
lines 497-505): update the row with that key in place if it exists,
append it otherwise. -/
def upsert_usage (usage : List UsageRow) (uid wid t : Nat) : List UsageRow :=
  if usage.any (fun r => r.userId == uid && r.wordId == wid) then
    usage.map (fun r =>
      if r.userId == uid && r.wordId == wid then { r with lastUsedAt := t } else r)
  else usage ++ [⟨uid, wid, t⟩]

/-- Lookup of `last_used_at` by the `(user_id, word_id)` primary key. -/
def lookup_usage (usage : List UsageRow) (uid wid : Nat) : Option Nat :=
  (usage.find? (fun r => r.userId == uid && r.wordId == wid)).map
    (fun r => r.lastUsedAt)

/-- server.select_words_for_user (src/server.py lines 482-507):
`SELECT id, word FROM words ORDER BY RANDOM() LIMIT ?`, then upsert the
usage rows of the selected words for this user at the current time and
return the selected words.  `randomOrder` is the permutation of the `words`
table the database's RANDOM() ordering produced (theorems hypothesise
`randomOrder.Perm st.words`); `now` is the current timestamp. -/
def select_words_for_user (st : WordStore) (userId limit now : Nat)
    (randomOrder : List WordRow) : WordStore × List String :=
  let rows := randomOrder.take limit
  if rows.isEmpty then (st, [])
  else
    ({ st with
        usage := rows.foldl (fun u row => upsert_usage u userId row.id now) st.usage },
      rows.map (fun r => r.word))

/-- server.update_word (src/server.py lines 460-465):
`UPDATE words SET word = ? WHERE id = ?`.  `none` models the
sqlite3.IntegrityError raised when the updated row would collide with a
different row under UNIQUE(word); a missing id updates zero rows and
succeeds. -/
def update_word (st : WordStore) (wordId : Nat) (word : String) :
    Option WordStore :=
  match st.words.find? (fun r => r.id == wordId) with
  | none => some st
  | some _ =>
    if st.words.any (fun r => r.word == word && r.id != wordId) then none
    else
      some { st with
        words := st.words.map (fun r =>
          if r.id == wordId then { r with word := word } else r) }

/-- The four ways the /words/edit handler can end: the three redirect
messages for rejected input plus the success redirect. -/
inductive EditOutcome where
  | emptyAfterClean
  | checkFailed
  | conflict
  | updated
deriving DecidableEq

/-- server.edit_word (src/server.py lines 1063-1090): clean the submitted
word, spell-check it, clean the first corrected token, and update the row,
mapping sqlite3.IntegrityError to the conflict outcome. -/
def edit_word (svc : String → String) (st : WordStore) (wordId : Nat)
    (word : String) : EditOutcome × WordStore :=
  let cleaned := clean_word word
  if cleaned = "" then (.emptyAfterClean, st)
  else
    let checkedWords := check_spelling svc [cleaned]
    let checked :=
      match checkedWords with
      | [] => ""
      | c :: _ => clean_word c
    if checked = "" then (.checkFailed, st)
    else
      match update_word st wordId checked with
      | none => (.conflict, st)
      | some st' => (.updated, st')

/-- An entry of a zip archive: its path inside the archive, whether it is a
directory entry, and (when it is a deck) the presentation it parses to. -/
structure ZipEntry where
  filename : String
  isDir : Bool
  deck : List (List Shape)
deriving DecidableEq

/-- A zip byte stream: either malformed (ZipFile raises BadZipFile) or a
well-formed archive with its entry list. -/
inductive ZipData where
  | malformed
  | wellFormed (entries : List ZipEntry)

/-- An archive path on disk: missing, or present with its bytes. -/
inductive ArchiveFile where
  | absent
  | present (data : ZipData)

/-- The error kinds of the archive walkers: FileNotFoundError for a missing
path (src/main.py line 31), and the BadZipFile-driven invalid-archive error
(HTTP 400 in src/server.py line 433, uncaught BadZipFile in src/main.py). -/
inductive ArchiveError where
  | notFound
  | invalidArchive
deriving DecidableEq

/-- Python `Path(name).suffix`: the extension of the final path component,
which is `name[i:]` for the last dot at `0 < i < len(name) - 1`, else empty. -/
def pySuffix (name : String) : String :=
  let base := name.toList.foldl (fun acc c => if c = '/' then [] else acc ++ [c]) []
  let rev := base.reverse
  match rev.findIdx? (fun c => c == '.') with
  | none => ""
  | some j =>
    if 1 ≤ j ∧ rev.drop (j + 1) ≠ [] then String.mk ((rev.take (j + 1)).reverse)
    else ""

/-- Python `str.lower()` on the ASCII extensions this repository compares. -/
def strToLower (s : String) : String := String.mk (s.toList.map Char.toLower)

/-- server.extract_words_from_zip (src/server.py lines 421-434): walk the
entries, skip directories and entries whose lowered suffix is not ".pptx",
extract words from the rest; a malformed archive is the invalid-archive
error. -/
def extract_words_from_zip : ZipData → Except ArchiveError (List String)
  | .malformed => .error .invalidArchive
  | .wellFormed entries =>
    .ok (entries.foldl
      (fun words info =>
        if info.isDir then words
        else if strToLower (pySuffix info.filename) ≠ ".pptx" then words
        else words ++ get_words_form_file info.deck)
      [])

/-- main.read_zipped_file (src/main.py lines 29-48) up to the word set it
builds: a missing path raises FileNotFoundError; a malformed archive raises
BadZipFile; otherwise the same walk as the server, collected as a set and
sorted. -/
def read_zipped_file : ArchiveFile → Except ArchiveError (List String)
  | .absent => .error .notFound
  | .present .malformed => .error .invalidArchive
  | .present (.wellFormed entries) =>
    .ok (pySortedSet (entries.foldl
      (fun words info =>
        if info.isDir then words
        else if strToLower (pySuffix info.filename) ≠ ".pptx" then words
        else words ++ get_words_form_file info.deck)
      []))

/-- A row of the `users` table as the admin handlers read it
(password columns play no role in the claims). -/
structure Account where
  id : Nat
  username : String
  isAdmin : Bool
deriving DecidableEq

/-- server.count_admins (src/server.py lines 258-264):
`SELECT COUNT(*) FROM users WHERE is_admin = 1`. -/
def count_admins (users : List Account) : Nat :=
  (users.filter (fun u => u.isAdmin)).length

/-- server.get_user_by_username (src/server.py lines 179-186):
`SELECT … FROM users WHERE username = ?`. -/
def get_user_by_username (users : List Account) (username : String) :
    Option Account :=
  users.find? (fun u => u.username == username)

/-- server.update_user_admin (src/server.py lines 244-250):
`UPDATE users SET is_admin = ? WHERE username = ?`. -/
def update_user_admin (users : List Account) (username : String)
    (isAdmin : Bool) : List Account :=
  users.map (fun u =>
    if u.username == username then { u with isAdmin := isAdmin } else u)

/-- server.delete_user (src/server.py lines 253-255):
`DELETE FROM users WHERE username = ?`. -/
def delete_user (users : List Account) (username : String) : List Account :=
  users.filter (fun u => u.username != username)

/-- The HTTPException kinds the admin handlers raise, by status code:
400 Bad Request, 404 Not Found, 403 Forbidden, 409 Conflict. -/
inductive ApiError where
  | badRequest
  | notFound
  | forbidden
  | conflict
deriving DecidableEq

/-- server.admin_update_role (src/server.py lines 991-1010) with its
require_admin dependency (line 409): 403 for a non-admin actor, 400 for an
empty username, 404 for an unknown target, 400 for self-demotion, 400 for
demoting an admin when at most one admin exists, else update the role. -/
def admin_update_role (users : List Account) (actor : Account)
    (username : String) (isAdminForm : Bool) : Except ApiError (List Account) :=
  if actor.isAdmin = false then .error .forbidden
  else
    let cleanUsername := pyStrip username
    if cleanUsername = "" then .error .badRequest
    else
      match get_user_by_username users cleanUsername with
      | none => .error .notFound
      | some target =>
        if isAdminForm = false ∧ cleanUsername = actor.username then
          .error .badRequest
        else if isAdminForm = false ∧ target.isAdmin = true ∧
            count_admins users ≤ 1 then
          .error .badRequest
        else .ok (update_user_admin users cleanUsername isAdminForm)

/-- server.admin_delete_user (src/server.py lines 1013-1030) with its
require_admin dependency: 403 for a non-admin actor, 400 for an empty
username, 400 for self-deletion, 404 for an unknown target, 400 for
deleting an admin when at most one admin exists, else delete. -/
def admin_delete_user (users : List Account) (actor : Account)
    (username : String) : Except ApiError (List Account) :=
  if actor.isAdmin = false then .error .forbidden
  else
    let cleanUsername := pyStrip username
    if cleanUsername = "" then .error .badRequest
    else if cleanUsername = actor.username then .error .badRequest
    else
      match get_user_by_username users cleanUsername with
      | none => .error .notFound
      | some target =>
        if target.isAdmin = true ∧ count_admins users ≤ 1 then
          .error .badRequest
        else .ok (delete_user users cleanUsername)

/-- The account table after a handler ran: its new state on success, the old
state when the handler raised (every raise happens before any UPDATE). -/
def stateAfter (users : List Account) :
    Except ApiError (List Account) → List Account
  | .ok u => u
  | .error _ => users

/-- Decidable equality of handler results, for evaluating the embedding at
concrete inputs. -/
instance exceptDecEq {ε α : Type} [DecidableEq ε] [DecidableEq α] :
    DecidableEq (Except ε α) := fun x y =>
  match x, y with
  | .ok a, .ok b =>
    if h : a = b then .isTrue (by rw [h])
    else .isFalse (fun hh => by cases hh; exact h rfl)
  | .error a, .error b =>
    if h : a = b then .isTrue (by rw [h])
    else .isFalse (fun hh => by cases hh; exact h rfl)
  | .ok _, .error _ => .isFalse (fun hh => by cases hh)
  | .error _, .ok _ => .isFalse (fun hh => by cases hh)

/-! ### Helper lemmas about the python string primitives -/

theorem toList_mk (l : List Char) : (String.mk l).toList = l := rfl

theorem mk_toList (s : String) : String.mk s.toList = s := rfl

theorem allowed_not_space {c : Char} (h : isAllowedChar c = true) :
    pyIsSpace c = false := by
  simp only [isAllowedChar, Bool.or_eq_true, Bool.and_eq_true,
    decide_eq_true_eq] at h
  simp only [pyIsSpace, Bool.or_eq_false_iff, decide_eq_false_iff_not]
  omega

theorem dropWhile_space_eq_self {l : List Char}
    (h : ∀ c ∈ l, pyIsSpace c = false) : l.dropWhile pyIsSpace = l := by
  cases l with
  | nil => rfl
  | cons a t => rw [List.dropWhile_cons, h a (List.mem_cons_self a t)]; simp

theorem pyStripList_eq_self {l : List Char}
    (h : ∀ c ∈ l, pyIsSpace c = false) : pyStripList l = l := by
  unfold pyStripList
  rw [dropWhile_space_eq_self h,
    dropWhile_space_eq_self (fun c hc => h c (List.mem_reverse.mp hc)),
    List.reverse_reverse]

theorem clean_word_eq_filter (s : String) :
    clean_word s = String.mk (s.toList.filter isAllowedChar) := by
  unfold clean_word pyStrip
  congr 1
  apply pyStripList_eq_self
  intro c hc
  rw [toList_mk] at hc
  exact allowed_not_space (List.of_mem_filter hc)

theorem mem_clean_word_allowed {s : String} {c : Char}
    (h : c ∈ (clean_word s).toList) : isAllowedChar c = true := by
  rw [clean_word_eq_filter, toList_mk] at h
  exact List.of_mem_filter h

theorem clean_word_all_allowed (s : String) :
    ((clean_word s).toList.all isAllowedChar) = true :=
  List.all_eq_true.mpr fun _ hc => mem_clean_word_allowed hc

/-! ### Helper lemmas about the sorted-set operation -/

theorem insertSorted_perm (a : String) (l : List String) :
    (insertSorted a l).Perm (a :: l) := by
  induction l with
  | nil => exact List.Perm.refl _
  | cons b bs ih =>
    unfold insertSorted
    by_cases h : strLeb a b = true
    · rw [if_pos h]
    · rw [if_neg h]
      exact (ih.cons b).trans (List.Perm.swap a b bs)

theorem sortStrings_perm (l : List String) : (sortStrings l).Perm l := by
  induction l with
  | nil => exact List.Perm.refl _
  | cons a as ih => exact (insertSorted_perm a (sortStrings as)).trans (ih.cons a)

theorem pySortedSet_perm_dedup (l : List String) :
    (pySortedSet l).Perm l.dedup := sortStrings_perm l.dedup

theorem mem_pySortedSet {x : String} {l : List String} :
    x ∈ pySortedSet l ↔ x ∈ l :=
  ((pySortedSet_perm_dedup l).mem_iff).trans List.mem_dedup

theorem nodup_pySortedSet (l : List String) : (pySortedSet l).Nodup :=
  ((pySortedSet_perm_dedup l).nodup_iff).mpr (List.nodup_dedup l)

/-! ### Claim C10 -/

/-- C10: for every input string, `clean_word` returns only Latin letters and
Cyrillic letters of the regex class (А-я plus Ё and ё); it is idempotent;
its output contains no whitespace, so the trailing strip is a no-op. -/
theorem c10_clean_word_letters_idempotent (s : String) :
    ((clean_word s).toList.all isAllowedChar) = true
    ∧ clean_word (clean_word s) = clean_word s
    ∧ pyStrip (clean_word s) = clean_word s
    ∧ ((clean_word s).toList.all (fun c => !pyIsSpace c)) = true := by
  have hall : ∀ c ∈ (clean_word s).toList, isAllowedChar c = true :=
    fun _ hc => mem_clean_word_allowed hc
  refine ⟨clean_word_all_allowed s, ?_, ?_, ?_⟩
  · conv_lhs => rw [clean_word_eq_filter (clean_word s)]
    rw [List.filter_eq_self.mpr hall, mk_toList]
  · unfold pyStrip
    rw [pyStripList_eq_self (fun c hc => allowed_not_space (hall c hc)), mk_toList]
  · exact List.all_eq_true.mpr fun c hc => by
      rw [allowed_not_space (hall c hc)]; rfl

/-! ### Claim C5 -/

/-- C5: for the empty candidate set, normalization returns the empty result
and never invokes the external spell-correction service, whatever the
service's behaviour. -/
theorem c5_normalize_empty_short_circuit (svc : String → String) :
    normalize_wordsN svc [] = ([], 0) ∧ normalize_words svc [] = [] :=
  ⟨rfl, rfl⟩

/-! ### Helper lemmas for the extractor -/

theorem isPrefixOf_iff_append {l₁ l₂ : List Char} :
    l₁.isPrefixOf l₂ = true ↔ ∃ post, l₂ = l₁ ++ post := by
  induction l₁ generalizing l₂ with
  | nil => simp [List.isPrefixOf]
  | cons a as ih =>
    cases l₂ with
    | nil => simp [List.isPrefixOf]
    | cons b bs =>
      simp only [List.isPrefixOf, Bool.and_eq_true, beq_iff_eq, ih,
        List.cons_append, List.cons.injEq]
      constructor
      · rintro ⟨hab, post, hp⟩; exact ⟨post, hab.symm, hp⟩
      · rintro ⟨post, hab, hp⟩; exact ⟨hab.symm, post, hp⟩

theorem hasSubstring_iff_infix {pat s : List Char} :
    hasSubstring pat s = true ↔ ∃ pre post, s = pre ++ pat ++ post := by
  induction s with
  | nil =>
    simp only [hasSubstring, List.isEmpty_iff]
    constructor
    · rintro rfl; exact ⟨[], [], rfl⟩
    · rintro ⟨pre, post, hp⟩
      have h2 := hp.symm
      rw [List.append_eq_nil, List.append_eq_nil] at h2
      exact h2.1.2
  | cons c t ih =>
    simp only [hasSubstring, Bool.or_eq_true, isPrefixOf_iff_append, ih]
    constructor
    · rintro (⟨post, hp⟩ | ⟨pre, post, hp⟩)
      · exact ⟨[], post, by simpa using hp⟩
      · exact ⟨c :: pre, post, by simp [hp]⟩
    · rintro ⟨pre, post, hp⟩
      cases pre with
      | nil => exact Or.inl ⟨post, by simpa using hp⟩
      | cons x xs =>
        simp only [List.cons_append, List.cons.injEq] at hp
        exact Or.inr ⟨xs, post, hp.2⟩

theorem extractor_inner_fold (slide : List Shape) (acc : List String) :
    slide.foldl
        (fun result shape =>
          if shape.hasTextFrame = false then result
          else if is_not_valid shape.text then result
          else result ++ [pyStrip shape.text])
        acc
      = acc ++ (slide.filter
          (fun sh => sh.hasTextFrame && !is_not_valid sh.text)).map
          (fun sh => pyStrip sh.text) := by
  induction slide generalizing acc with
  | nil => simp
  | cons sh t ih =>
    rw [List.foldl_cons, List.filter_cons]
    cases hf : sh.hasTextFrame with
    | false => simp [hf, ih]
    | true =>
      cases hv : is_not_valid sh.text with
      | false => simp [hf, hv, ih]
      | true => simp [hf, hv, ih]

theorem extractor_fold (prs : List (List Shape)) (acc : List String) :
    prs.foldl
        (fun result slide =>
          slide.foldl
            (fun result shape =>
              if shape.hasTextFrame = false then result
              else if is_not_valid shape.text then result
              else result ++ [pyStrip shape.text])
            result)
        acc
      = acc ++ (prs.flatten.filter
          (fun sh => sh.hasTextFrame && !is_not_valid sh.text)).map
          (fun sh => pyStrip sh.text) := by
  induction prs generalizing acc with
  | nil => simp
  | cons s t ih =>
    rw [List.foldl_cons, extractor_inner_fold, ih, List.flatten_cons,
      List.filter_append, List.map_append, List.append_assoc]

theorem get_words_form_file_eq (prs : List (List Shape)) :
    get_words_form_file prs
      = (prs.flatten.filter
          (fun sh => sh.hasTextFrame && !is_not_valid sh.text)).map
          (fun sh => pyStrip sh.text) := by
  unfold get_words_form_file
  rw [extractor_fold, List.nil_append]

/-! ### Claim C3 -/

/-- C3: a shape's text is included in the extraction result iff the shape
has a text frame and its raw text contains no space, no hyphen, no colon
and no occurrence of the marker token; each included entry is the original
text stripped of surrounding whitespace, in slide-then-shape document
order; a deck with no qualifying shape yields the empty list. -/
theorem c3_extractor_filter_strip_order (deck : List (List Shape)) :
    get_words_form_file deck
      = (deck.flatten.filter
          (fun sh => sh.hasTextFrame && !is_not_valid sh.text)).map
          (fun sh => pyStrip sh.text)
    ∧ (∀ w : String, w ∈ get_words_form_file deck ↔
        ∃ sh : Shape, sh ∈ deck.flatten ∧ sh.hasTextFrame = true
          ∧ is_not_valid sh.text = false ∧ w = pyStrip sh.text)
    ∧ (∀ t : String, is_not_valid t = true ↔
        (' ' ∈ t.toList ∨ '-' ∈ t.toList ∨ ':' ∈ t.toList ∨
          ∃ pre post : List Char, t.toList = pre ++ markerToken.toList ++ post))
    ∧ get_words_form_file ([] : List (List Shape)) = [] := by
  refine ⟨get_words_form_file_eq deck, ?_, ?_, rfl⟩
  · intro w
    rw [get_words_form_file_eq]
    simp only [List.mem_map, List.mem_filter, Bool.and_eq_true,
      Bool.not_eq_true']
    constructor
    · rintro ⟨sh, ⟨hmem, hframe, hvalid⟩, hw⟩
      exact ⟨sh, hmem, hframe, hvalid, hw.symm⟩
    · rintro ⟨sh, hmem, hframe, hvalid, hw⟩
      exact ⟨sh, ⟨hmem, hframe, hvalid⟩, hw.symm⟩
  · intro t
    simp only [is_not_valid, Bool.or_eq_true, List.elem_iff,
      hasSubstring_iff_infix]
    tauto

/-! ### Helper lemma for the archive walkers -/

theorem zip_walk_fold (entries : List ZipEntry) (acc : List String) :
    entries.foldl
        (fun words info =>
          if info.isDir then words
          else if strToLower (pySuffix info.filename) ≠ ".pptx" then words
          else words ++ get_words_form_file info.deck)
        acc
      = acc ++ ((entries.filter
          (fun e => !e.isDir &&
            (strToLower (pySuffix e.filename) == ".pptx"))).map
          (fun e => get_words_form_file e.deck)).flatten := by
  induction entries generalizing acc with
  | nil => simp
  | cons e t ih =>
    rw [List.foldl_cons, List.filter_cons]
    cases e.isDir with
    | true =>
      rw [if_pos rfl, ih]
      simp
    | false =>
      rw [if_neg Bool.false_ne_true]
      by_cases hs : strToLower (pySuffix e.filename) = ".pptx"
      · rw [if_neg (fun h => h hs), ih, hs]
        simp [List.append_assoc]
      · rw [if_pos hs, ih]
        have hfilt : (!false &&
            (strToLower (pySuffix e.filename) == ".pptx")) = false := by
          simp only [Bool.not_false, Bool.true_and, beq_eq_false_iff_ne]
          exact hs
        rw [hfilt]
        simp

/-! ### Claim C8 -/

/-- C8: the archive walker fails with the invalid-archive error on a
malformed zip and with the not-found error on a missing archive path, while
directory entries and entries whose lowered extension is not ".pptx" are
silently skipped: a well-formed archive yields exactly the concatenated
extraction of the surviving deck entries, with no error. -/
theorem c8_archive_errors_and_skip (entries : List ZipEntry) :
    extract_words_from_zip .malformed = .error .invalidArchive
    ∧ read_zipped_file .absent = .error .notFound
    ∧ read_zipped_file (.present .malformed) = .error .invalidArchive
    ∧ extract_words_from_zip (.wellFormed entries)
        = .ok (((entries.filter
            (fun e => !e.isDir &&
              (strToLower (pySuffix e.filename) == ".pptx"))).map
            (fun e => get_words_form_file e.deck)).flatten)
    ∧ read_zipped_file (.present (.wellFormed entries))
        = .ok (pySortedSet (((entries.filter
            (fun e => !e.isDir &&
              (strToLower (pySuffix e.filename) == ".pptx"))).map
            (fun e => get_words_form_file e.deck)).flatten))
    ∧ ArchiveError.invalidArchive ≠ ArchiveError.notFound := by
  refine ⟨rfl, rfl, rfl, ?_, ?_, by decide⟩
  · simp only [extract_words_from_zip]
    rw [zip_walk_fold, List.nil_append]
  · simp only [read_zipped_file]
    rw [zip_walk_fold, List.nil_append]

/-! ### Helper lemmas for insert_words -/

theorem insert_words_cons_mem {st : WordStore} {w : String} {t : List String}
    (h : w ∈ wordsOf st) : insert_words st (w :: t) = insert_words st t := by
  simp [insert_words, h]

theorem insert_words_cons_new_fst {st : WordStore} {w : String}
    {t : List String} (h : w ∉ wordsOf st) :
    (insert_words st (w :: t)).1 = (insert_words (addRow st w) t).1 := by
  simp [insert_words, addRow, h]

theorem insert_words_cons_new_snd {st : WordStore} {w : String}
    {t : List String} (h : w ∉ wordsOf st) :
    (insert_words st (w :: t)).2 = (insert_words (addRow st w) t).2 + 1 := by
  simp [insert_words, addRow, h]

theorem wordsOf_append_row (st : WordStore) (w : String) :
    wordsOf (addRow st w) = wordsOf st ++ [w] := by
  simp [wordsOf, addRow]

theorem insert_words_count (st : WordStore) (ws : List String) :
    (insert_words st ws).2 = (ws.toFinset \ (wordsOf st).toFinset).card := by
  induction ws generalizing st with
  | nil => simp [insert_words]
  | cons w t ih =>
    by_cases h : w ∈ wordsOf st
    · rw [insert_words_cons_mem h, ih, List.toFinset_cons,
        Finset.insert_sdiff_of_mem _ (List.mem_toFinset.mpr h)]
    · rw [insert_words_cons_new_snd h]
      have h2 := ih (addRow st w)
      rw [h2]
      have hnotE : w ∉ (wordsOf st).toFinset :=
        fun hc => h (List.mem_toFinset.mp hc)
      have e1 : insert w t.toFinset \ (wordsOf st).toFinset
          = insert w (t.toFinset \ (wordsOf st).toFinset) := by
        ext x
        simp only [Finset.mem_sdiff, Finset.mem_insert]
        constructor
        · rintro ⟨hx | hx, hxe⟩
          · exact Or.inl hx
          · exact Or.inr ⟨hx, hxe⟩
        · rintro (rfl | ⟨hx, hxe⟩)
          · exact ⟨Or.inl rfl, hnotE⟩
          · exact ⟨Or.inr hx, hxe⟩
      have e2 : t.toFinset \ (wordsOf (addRow st w)).toFinset
          = (t.toFinset \ (wordsOf st).toFinset).erase w := by
        ext x
        simp only [Finset.mem_sdiff, Finset.mem_erase, List.mem_toFinset,
          wordsOf_append_row, List.mem_append, List.mem_singleton]
        tauto
      have e3 : insert w (t.toFinset \ (wordsOf st).toFinset)
          = insert w ((t.toFinset \ (wordsOf st).toFinset).erase w) := by
        ext x
        simp only [Finset.mem_insert, Finset.mem_erase]
        tauto
      rw [e2, List.toFinset_cons, e1, e3,
        Finset.card_insert_of_not_mem (Finset.not_mem_erase _ _)]

theorem insert_words_length (st : WordStore) (ws : List String) :
    (insert_words st ws).1.words.length
      = st.words.length + (insert_words st ws).2 := by
  induction ws generalizing st with
  | nil => simp [insert_words]
  | cons w t ih =>
    by_cases h : w ∈ wordsOf st
    · rw [insert_words_cons_mem h]; exact ih st
    · rw [insert_words_cons_new_fst h, insert_words_cons_new_snd h]
      have h2 := ih (addRow st w)
      rw [h2]
      simp only [addRow, List.length_append, List.length_singleton]
      omega

theorem insert_words_wordset (st : WordStore) (ws : List String) :
    (wordsOf (insert_words st ws).1).toFinset
      = (wordsOf st).toFinset ∪ ws.toFinset := by
  induction ws generalizing st with
  | nil => simp [insert_words]
  | cons w t ih =>
    by_cases h : w ∈ wordsOf st
    · rw [insert_words_cons_mem h, ih, List.toFinset_cons]
      ext x
      simp only [Finset.mem_union, Finset.mem_insert, List.mem_toFinset]
      constructor
      · rintro (hx | hx)
        · exact Or.inl hx
        · exact Or.inr (Or.inr hx)
      · rintro (hx | rfl | hx)
        · exact Or.inl hx
        · exact Or.inl h
        · exact Or.inr hx
    · rw [insert_words_cons_new_fst h]
      have h2 := ih (addRow st w)
      rw [h2]
      ext x
      simp only [Finset.mem_union, List.mem_toFinset, wordsOf_append_row,
        List.mem_append, List.mem_singleton, List.mem_cons]
      tauto

/-! ### Claim C6 -/

/-- C6: insert is insert-if-absent: it returns exactly the number of words
not already stored (each distinct new word counted once), the stored rows
grow by exactly that count, the stored word set becomes the union, a
re-insert of a present word is a no-op rather than an error, and inserting
the same word twice (within one call or across two calls) grows the store
by exactly one row. -/
theorem c6_insert_if_absent (st : WordStore) (ws : List String) (w : String) :
    (insert_words st ws).2 = (ws.toFinset \ (wordsOf st).toFinset).card
    ∧ (insert_words st ws).1.words.length
        = st.words.length + (insert_words st ws).2
    ∧ (wordsOf (insert_words st ws).1).toFinset
        = (wordsOf st).toFinset ∪ ws.toFinset
    ∧ (w ∈ wordsOf st → insert_words st [w] = (st, 0))
    ∧ (w ∉ wordsOf st →
        (insert_words st [w, w]).2 = 1
        ∧ (insert_words st [w, w]).1.words.length = st.words.length + 1
        ∧ (insert_words (insert_words st [w]).1 [w]).2 = 0
        ∧ (insert_words (insert_words st [w]).1 [w]).1.words.length
            = st.words.length + 1) := by
  refine ⟨insert_words_count st ws, insert_words_length st ws,
    insert_words_wordset st ws, ?_, ?_⟩
  · intro h
    rw [insert_words_cons_mem h]
    rfl
  · intro h
    have hmem : w ∈ wordsOf (addRow st w) := by
      simp [wordsOf, addRow]
    have e : (insert_words st [w]).1 = addRow st w := by
      rw [insert_words_cons_new_fst h]
      simp [insert_words]
    refine ⟨?_, ?_, ?_, ?_⟩
    · rw [insert_words_cons_new_snd h, insert_words_cons_mem hmem]
      simp [insert_words]
    · rw [insert_words_cons_new_fst h, insert_words_cons_mem hmem]
      simp [insert_words, addRow]
    · rw [e, insert_words_cons_mem hmem]
      simp [insert_words]
    · rw [e, insert_words_cons_mem hmem]
      simp [insert_words, addRow]

/-- Witness for C6 at a concrete store: re-inserting a stored word is a
no-op, and inserting a fresh word twice in one call adds exactly one row. -/
theorem c6_insert_if_absent_witness :
    ("dog" ∈ wordsOf ⟨[⟨1, "dog"⟩], [], 2⟩)
    ∧ insert_words ⟨[⟨1, "dog"⟩], [], 2⟩ ["dog"] = (⟨[⟨1, "dog"⟩], [], 2⟩, 0)
    ∧ ("cat" ∉ wordsOf ⟨[⟨1, "dog"⟩], [], 2⟩)
    ∧ (insert_words ⟨[⟨1, "dog"⟩], [], 2⟩ ["cat", "cat"]).2 = 1
    ∧ (insert_words ⟨[⟨1, "dog"⟩], [], 2⟩ ["cat", "cat"]).1.words.length
        = (⟨[⟨1, "dog"⟩], [], 2⟩ : WordStore).words.length + 1 :=
  ⟨by decide,
   (c6_insert_if_absent ⟨[⟨1, "dog"⟩], [], 2⟩ [] "dog").2.2.2.1 (by decide),
   by decide,
   ((c6_insert_if_absent ⟨[⟨1, "dog"⟩], [], 2⟩ [] "cat").2.2.2.2 (by decide)).1,
   ((c6_insert_if_absent ⟨[⟨1, "dog"⟩], [], 2⟩ [] "cat").2.2.2.2 (by decide)).2.1⟩

/-! ### Helper lemmas for the usage upsert -/

theorem find?_cons_pos {α : Type} (p : α → Bool) {a : α} {l : List α}
    (h : p a = true) : List.find? p (a :: l) = some a :=
  List.find?_cons_of_pos l h

theorem find?_cons_neg {α : Type} (p : α → Bool) {a : α} {l : List α}
    (h : ¬ p a = true) : List.find? p (a :: l) = List.find? p l :=
  List.find?_cons_of_neg l h

theorem lookup_map_set (u : List UsageRow) (uid wid t : Nat)
    (h : u.any (fun r => r.userId == uid && r.wordId == wid) = true) :
    lookup_usage (u.map (fun r =>
        if r.userId == uid && r.wordId == wid then { r with lastUsedAt := t }
        else r)) uid wid
      = some t := by
  induction u with
  | nil => simp at h
  | cons r u ih =>
    rw [List.map_cons]
    by_cases hr : (r.userId == uid && r.wordId == wid) = true
    · rw [if_pos hr]
      unfold lookup_usage
      rw [find?_cons_pos (fun r : UsageRow => r.userId == uid && r.wordId == wid) (show (({ r with lastUsedAt := t } : UsageRow).userId == uid && ({ r with lastUsedAt := t } : UsageRow).wordId == wid) = true from hr)]
      rfl
    · have h' : u.any (fun r => r.userId == uid && r.wordId == wid) = true := by
        simp only [List.any_cons, Bool.or_eq_true] at h
        exact h.resolve_left hr
      rw [if_neg hr]
      unfold lookup_usage
      rw [find?_cons_neg (fun r : UsageRow => r.userId == uid && r.wordId == wid) hr]
      exact ih h'

theorem lookup_map_other (u : List UsageRow) (uid wid t uid' wid' : Nat)
    (hne : ¬(uid' = uid ∧ wid' = wid)) :
    lookup_usage (u.map (fun r =>
        if r.userId == uid && r.wordId == wid then { r with lastUsedAt := t }
        else r)) uid' wid'
      = lookup_usage u uid' wid' := by
  induction u with
  | nil => rfl
  | cons r u ih =>
    rw [List.map_cons]
    by_cases hk : (r.userId == uid && r.wordId == wid) = true
    · rw [if_pos hk]
      by_cases hq : (r.userId == uid' && r.wordId == wid') = true
      · exfalso
        simp only [Bool.and_eq_true, beq_iff_eq] at hk hq
        exact hne ⟨hq.1.symm.trans hk.1, hq.2.symm.trans hk.2⟩
      · unfold lookup_usage
        rw [find?_cons_neg (fun r : UsageRow => r.userId == uid' && r.wordId == wid') (show ¬ (({ r with lastUsedAt := t } : UsageRow).userId == uid' && ({ r with lastUsedAt := t } : UsageRow).wordId == wid') = true from hq), find?_cons_neg (fun r : UsageRow => r.userId == uid' && r.wordId == wid') hq]
        exact ih
    · rw [if_neg hk]
      unfold lookup_usage
      by_cases hq : (r.userId == uid' && r.wordId == wid') = true
      · rw [find?_cons_pos (fun r : UsageRow => r.userId == uid' && r.wordId == wid') hq, find?_cons_pos (fun r : UsageRow => r.userId == uid' && r.wordId == wid') hq]
      · rw [find?_cons_neg (fun r : UsageRow => r.userId == uid' && r.wordId == wid') hq, find?_cons_neg (fun r : UsageRow => r.userId == uid' && r.wordId == wid') hq]
        exact ih

theorem lookup_append_self (u : List UsageRow) (uid wid t : Nat)
    (h : u.any (fun r => r.userId == uid && r.wordId == wid) = false) :
    lookup_usage (u ++ [⟨uid, wid, t⟩]) uid wid = some t := by
  induction u with
  | nil =>
    unfold lookup_usage
    rw [List.nil_append, find?_cons_pos (fun r : UsageRow => r.userId == uid && r.wordId == wid) (by simp)]
    rfl
  | cons r u ih =>
    simp only [List.any_cons, Bool.or_eq_false_iff] at h
    rw [List.cons_append]
    unfold lookup_usage
    rw [find?_cons_neg (fun r : UsageRow => r.userId == uid && r.wordId == wid) (by simp [h.1])]
    exact ih h.2

theorem lookup_append_other (u : List UsageRow) (uid wid t uid' wid' : Nat)
    (hne : ¬(uid' = uid ∧ wid' = wid)) :
    lookup_usage (u ++ [⟨uid, wid, t⟩]) uid' wid'
      = lookup_usage u uid' wid' := by
  induction u with
  | nil =>
    have hpred : ¬ (((⟨uid, wid, t⟩ : UsageRow).userId == uid'
        && ((⟨uid, wid, t⟩ : UsageRow).wordId == wid')) = true) := by
      simp only [Bool.and_eq_true, beq_iff_eq]
      intro hcon
      exact hne ⟨hcon.1.symm, hcon.2.symm⟩
    unfold lookup_usage
    rw [List.nil_append, find?_cons_neg (fun r : UsageRow => r.userId == uid' && r.wordId == wid') hpred]
  | cons r u ih =>
    rw [List.cons_append]
    unfold lookup_usage
    by_cases hq : (r.userId == uid' && r.wordId == wid') = true
    · rw [find?_cons_pos (fun r : UsageRow => r.userId == uid' && r.wordId == wid') hq, find?_cons_pos (fun r : UsageRow => r.userId == uid' && r.wordId == wid') hq]
    · rw [find?_cons_neg (fun r : UsageRow => r.userId == uid' && r.wordId == wid') hq, find?_cons_neg (fun r : UsageRow => r.userId == uid' && r.wordId == wid') hq]
      exact ih

theorem lookup_upsert (usage : List UsageRow) (uid wid t uid' wid' : Nat) :
    lookup_usage (upsert_usage usage uid wid t) uid' wid'
      = if uid' = uid ∧ wid' = wid then some t
        else lookup_usage usage uid' wid' := by
  unfold upsert_usage
  by_cases hex : usage.any (fun r => r.userId == uid && r.wordId == wid) = true
  · rw [if_pos hex]
    by_cases hq : uid' = uid ∧ wid' = wid
    · obtain ⟨rfl, rfl⟩ := hq
      rw [if_pos ⟨rfl, rfl⟩]
      exact lookup_map_set usage uid' wid' t hex
    · rw [if_neg hq]
      exact lookup_map_other usage uid wid t uid' wid' hq
  · rw [if_neg hex]
    have hex' : usage.any (fun r => r.userId == uid && r.wordId == wid)
        = false := by
      revert hex
      cases usage.any (fun r => r.userId == uid && r.wordId == wid) <;> simp
    by_cases hq : uid' = uid ∧ wid' = wid
    · obtain ⟨rfl, rfl⟩ := hq
      rw [if_pos ⟨rfl, rfl⟩]
      exact lookup_append_self usage uid' wid' t hex'
    · rw [if_neg hq]
      exact lookup_append_other usage uid wid t uid' wid' hq

theorem lookup_fold_upsert (rows : List WordRow) (u : List UsageRow)
    (userId now uid wid : Nat) :
    lookup_usage (rows.foldl (fun acc row => upsert_usage acc userId row.id now) u)
        uid wid
      = if uid = userId ∧ wid ∈ rows.map (fun r => r.id) then some now
        else lookup_usage u uid wid := by
  induction rows generalizing u with
  | nil => simp
  | cons row rows ih =>
    rw [List.foldl_cons, ih, lookup_upsert]
    by_cases h1 : uid = userId
    · by_cases h3 : wid = row.id
      · simp [h1, h3, List.mem_cons]
      · by_cases h2 : wid ∈ rows.map (fun r => r.id)
        · simp [h1, h2, h3, List.mem_cons]
        · simp [h1, h2, h3, List.mem_cons]
    · simp [h1]

/-! ### Claim C2 -/

/-- C2: for every user, requested count and store state (and every order the
database's RANDOM() could pick), `select_words_for_user` returns
`min n (number of stored words)` distinct words without error, leaves the
`words` table unchanged, and upserts exactly the selected words' usage rows
for that user to the current time, leaving every other usage row unchanged. -/
theorem c2_select_count_and_upsert (st : WordStore) (userId n now : Nat)
    (randomOrder : List WordRow)
    (hperm : randomOrder.Perm st.words)
    (hnd : (wordsOf st).Nodup) :
    (select_words_for_user st userId n now randomOrder).2.length
        = min n st.words.length
    ∧ (select_words_for_user st userId n now randomOrder).2.Nodup
    ∧ (select_words_for_user st userId n now randomOrder).1.words = st.words
    ∧ (∀ uid wid : Nat,
        lookup_usage (select_words_for_user st userId n now randomOrder).1.usage
            uid wid
          = if uid = userId ∧ wid ∈ (randomOrder.take n).map (fun r => r.id)
            then some now else lookup_usage st.usage uid wid) := by
  by_cases hnil : randomOrder.take n = []
  · have hsel : select_words_for_user st userId n now randomOrder = (st, []) := by
      simp [select_words_for_user, hnil]
    rw [hsel]
    refine ⟨?_, by simp, rfl, ?_⟩
    · have h0 := List.length_take n randomOrder
      rw [hnil, hperm.length_eq] at h0
      exact h0
    · intro uid wid
      rw [hnil]
      simp
  · have he : (randomOrder.take n).isEmpty = false := by
      cases hc : randomOrder.take n with
      | nil => exact absurd hc hnil
      | cons a l => rfl
    have hsel : select_words_for_user st userId n now randomOrder
        = ({ st with usage := (randomOrder.take n).foldl (fun u row => upsert_usage u userId row.id now) st.usage },
           (randomOrder.take n).map (fun r => r.word)) := by
      simp [select_words_for_user, he]
    rw [hsel]
    refine ⟨?_, ?_, rfl, ?_⟩
    · rw [List.length_map, List.length_take, hperm.length_eq]
    · have hsub : ((randomOrder.take n).map (fun r => r.word)).Sublist
          (randomOrder.map (fun r => r.word)) :=
        (List.take_sublist n randomOrder).map _
      have hnd2 : (randomOrder.map (fun r => r.word)).Nodup :=
        ((hperm.map (fun r => r.word)).nodup_iff).mpr
          (show (st.words.map (fun r => r.word)).Nodup from hnd)
      exact List.Nodup.sublist hsub hnd2
    · intro uid wid
      exact lookup_fold_upsert (randomOrder.take n) st.usage userId now uid wid

/-- Witness for C2 at a concrete store: two stored words, one prior usage
row; selecting one word under the identity permutation returns one word,
stamps its usage row and leaves the other user-word pair untouched. -/
theorem c2_select_count_and_upsert_witness :
    ([⟨1, "cat"⟩, ⟨2, "dog"⟩] : List WordRow).Perm
        (⟨[⟨1, "cat"⟩, ⟨2, "dog"⟩], [⟨5, 1, 3⟩], 3⟩ : WordStore).words
    ∧ (wordsOf ⟨[⟨1, "cat"⟩, ⟨2, "dog"⟩], [⟨5, 1, 3⟩], 3⟩).Nodup
    ∧ (select_words_for_user ⟨[⟨1, "cat"⟩, ⟨2, "dog"⟩], [⟨5, 1, 3⟩], 3⟩ 5 1 9
        [⟨1, "cat"⟩, ⟨2, "dog"⟩]).2.length = min 1 2
    ∧ lookup_usage (select_words_for_user ⟨[⟨1, "cat"⟩, ⟨2, "dog"⟩], [⟨5, 1, 3⟩], 3⟩
        5 1 9 [⟨1, "cat"⟩, ⟨2, "dog"⟩]).1.usage 5 1 = some 9
    ∧ lookup_usage (select_words_for_user ⟨[⟨1, "cat"⟩, ⟨2, "dog"⟩], [⟨5, 1, 3⟩], 3⟩
        5 1 9 [⟨1, "cat"⟩, ⟨2, "dog"⟩]).1.usage 6 1 = none :=
  ⟨List.Perm.refl _, by decide,
   (c2_select_count_and_upsert ⟨[⟨1, "cat"⟩, ⟨2, "dog"⟩], [⟨5, 1, 3⟩], 3⟩ 5 1 9
      [⟨1, "cat"⟩, ⟨2, "dog"⟩] (List.Perm.refl _) (by decide)).1,
   ((c2_select_count_and_upsert ⟨[⟨1, "cat"⟩, ⟨2, "dog"⟩], [⟨5, 1, 3⟩], 3⟩ 5 1 9
      [⟨1, "cat"⟩, ⟨2, "dog"⟩] (List.Perm.refl _) (by decide)).2.2.2 5 1).trans
     (by decide),
   ((c2_select_count_and_upsert ⟨[⟨1, "cat"⟩, ⟨2, "dog"⟩], [⟨5, 1, 3⟩], 3⟩ 5 1 9
      [⟨1, "cat"⟩, ⟨2, "dog"⟩] (List.Perm.refl _) (by decide)).2.2.2 6 1).trans
     (by decide)⟩

/-! ### Claim C1 -/

/-- C1: evaluation of the selection at a failing input.  The store holds
"alpha" (used by user 7 at time 10) and "beta" (never used by user 7); the
vocabulary size 2 exceeds the request n = 1.  Under the RANDOM() ordering
that lists "alpha" first — a legitimate outcome of `ORDER BY RANDOM()`,
witnessed by the permutation hypothesis — the selection returns "alpha",
not the never-used "beta", and an immediately following second call under
the same ordering returns "alpha" again: the two successive selections
overlap completely instead of being disjoint, refuting the claimed
least-recently-used ranking. -/
theorem c1_select_ignores_usage_eval :
    ([⟨1, "alpha"⟩, ⟨2, "beta"⟩] : List WordRow).Perm
        (⟨[⟨1, "alpha"⟩, ⟨2, "beta"⟩], [⟨7, 1, 10⟩], 3⟩ : WordStore).words
    ∧ lookup_usage (⟨[⟨1, "alpha"⟩, ⟨2, "beta"⟩], [⟨7, 1, 10⟩], 3⟩
        : WordStore).usage 7 2 = none
    ∧ lookup_usage (⟨[⟨1, "alpha"⟩, ⟨2, "beta"⟩], [⟨7, 1, 10⟩], 3⟩
        : WordStore).usage 7 1 = some 10
    ∧ (select_words_for_user ⟨[⟨1, "alpha"⟩, ⟨2, "beta"⟩], [⟨7, 1, 10⟩], 3⟩
        7 1 20 [⟨1, "alpha"⟩, ⟨2, "beta"⟩]).2 = ["alpha"]
    ∧ ([⟨1, "alpha"⟩, ⟨2, "beta"⟩] : List WordRow).Perm
        (select_words_for_user ⟨[⟨1, "alpha"⟩, ⟨2, "beta"⟩], [⟨7, 1, 10⟩], 3⟩
          7 1 20 [⟨1, "alpha"⟩, ⟨2, "beta"⟩]).1.words
    ∧ (select_words_for_user
        (select_words_for_user ⟨[⟨1, "alpha"⟩, ⟨2, "beta"⟩], [⟨7, 1, 10⟩], 3⟩
          7 1 20 [⟨1, "alpha"⟩, ⟨2, "beta"⟩]).1
        7 1 30 [⟨1, "alpha"⟩, ⟨2, "beta"⟩]).2 = ["alpha"]
    ∧ 1 < (⟨[⟨1, "alpha"⟩, ⟨2, "beta"⟩], [⟨7, 1, 10⟩], 3⟩
        : WordStore).words.length := by
  refine ⟨List.Perm.refl _, by decide, by decide, by decide, ?_, by decide,
    by decide⟩
  decide

/-! ### Claim C4 -/

/-- C4, counterexample to the claim as stated: the candidate set
containing only "123" is non-empty, yet normalization never contacts the
spell-correction service (0 invocations, not exactly one), because the
cleaning-and-deduplication step that precedes the batch leaves no token. -/
theorem c4_nonempty_candidates_zero_calls :
    normalize_wordsN (fun s => s) ["123"] = ([], 0)
    ∧ (["123"] : List String) ≠ []
    ∧ (0 : Nat) ≠ 1 := by
  refine ⟨?_, by decide, by decide⟩
  rfl

/-- C4 as amended: when at least one candidate survives cleaning, the
sorted distinct cleaned candidates are joined into one whitespace-separated
batch, submitted to the service exactly once, the response is split on
whitespace, each token is stripped of every non-Latin, non-Cyrillic
character, empty results are discarded and the rest de-duplicated; every
output token is non-empty and letters-only, with no duplicates. -/
theorem c4_normalize_batch_once_cleaned (svc : String → String)
    (words : List String)
    (h : pySortedSet ((words.map clean_word).filter (fun w => w != "")) ≠ []) :
    normalize_wordsN svc words
      = (pySortedSet (((pySplit (svc (String.intercalate " "
            (pySortedSet ((words.map clean_word).filter
              (fun w => w != "")))))).map clean_word).filter
          (fun w => w != "")), 1)
    ∧ ((normalize_wordsN svc words).1.all
        (fun w => (w != "") && (w.toList.all isAllowedChar))) = true
    ∧ (normalize_wordsN svc words).1.Nodup := by
  have he : (pySortedSet ((words.map clean_word).filter
      (fun w => w != ""))).isEmpty = false := by
    cases hc : pySortedSet ((words.map clean_word).filter (fun w => w != "")) with
    | nil => exact absurd hc h
    | cons a l => rfl
  refine ⟨?_, ?_, ?_⟩
  · simp only [normalize_wordsN, check_spellingN, he]
    rfl
  · apply List.all_eq_true.mpr
    intro w hw
    have hw2 : w ∈ ((check_spellingN svc (pySortedSet ((words.map clean_word).filter
        (fun w => w != "")))).1.map clean_word).filter (fun w => w != "") := by
      have : (normalize_wordsN svc words).1 = pySortedSet (((check_spellingN svc
          (pySortedSet ((words.map clean_word).filter (fun w => w != "")))).1.map
            clean_word).filter (fun w => w != "")) := rfl
      rw [this] at hw
      exact mem_pySortedSet.mp hw
    rcases List.mem_filter.mp hw2 with ⟨hmem, hne⟩
    rcases List.mem_map.mp hmem with ⟨y, _, hy⟩
    rw [Bool.and_eq_true]
    exact ⟨hne, hy ▸ clean_word_all_allowed y⟩
  · exact nodup_pySortedSet _

/-- Witness for C4 at a concrete input: one clean candidate, an identity
service; the batch is submitted once and comes back as the single token. -/
theorem c4_normalize_batch_once_cleaned_witness :
    pySortedSet (((["ab"] : List String).map clean_word).filter
        (fun w => w != "")) ≠ []
    ∧ normalize_wordsN (fun s => s) ["ab"] = (["ab"], 1) :=
  ⟨by decide,
   ((c4_normalize_batch_once_cleaned (fun s => s) ["ab"] (by decide)).1).trans
     (by decide)⟩

/-! ### Claim C7 -/

/-- C7, counterexample to the claim as stated: editing a missing word id is
not reported as a "not found" error; the UPDATE matches zero rows, succeeds,
and the handler reports the success outcome, leaving the store unchanged.
There is no not-found outcome for word edits at all. -/
theorem c7_missing_id_reports_success :
    edit_word (fun s => s) ⟨[⟨1, "cat"⟩], [], 2⟩ 2 "dog"
      = (.updated, ⟨[⟨1, "cat"⟩], [], 2⟩)
    ∧ EditOutcome.updated ≠ EditOutcome.conflict := by
  refine ⟨?_, by decide⟩
  rfl

/-- C7 as amended: when the edited id exists and the cleaned, spell-checked
text equals a different existing row's word, the edit reports the conflict
outcome — distinct from the success outcome and from the empty-after-
cleaning outcome — and the store (both the edited row and the colliding
row) is left unchanged. -/
theorem c7_conflict_distinct_unchanged (svc : String → String)
    (st : WordStore) (wordId : Nat) (word checked : String)
    (hclean : ¬ clean_word word = "")
    (hchecked : (match check_spelling svc [clean_word word] with
      | [] => ""
      | c :: _ => clean_word c) = checked)
    (hch : ¬ checked = "")
    (hrow : (st.words.find? (fun r => r.id == wordId)).isSome = true)
    (hcol : st.words.any (fun r => r.word == checked && r.id != wordId) = true) :
    edit_word svc st wordId word = (.conflict, st)
    ∧ EditOutcome.conflict ≠ EditOutcome.updated
    ∧ EditOutcome.conflict ≠ EditOutcome.emptyAfterClean := by
  refine ⟨?_, by decide, by decide⟩
  obtain ⟨r, hr⟩ := Option.isSome_iff_exists.mp hrow
  have hupd : update_word st wordId checked = none := by
    unfold update_word
    rw [hr, hcol]
    rfl
  simp only [edit_word, hchecked, if_neg hclean, if_neg hch, hupd]

/-- Witness for C7 at a concrete store: editing row 1 ("cat") to "dog",
which row 2 already holds, reports the conflict outcome and leaves the
store unchanged. -/
theorem c7_conflict_distinct_unchanged_witness :
    ¬ clean_word "dog" = ""
    ∧ edit_word (fun s => s) ⟨[⟨1, "cat"⟩, ⟨2, "dog"⟩], [], 3⟩ 1 "dog"
        = (.conflict, ⟨[⟨1, "cat"⟩, ⟨2, "dog"⟩], [], 3⟩) :=
  ⟨by decide,
   (c7_conflict_distinct_unchanged (fun s => s) ⟨[⟨1, "cat"⟩, ⟨2, "dog"⟩], [], 3⟩
      1 "dog" "dog" (by decide) (by decide) (by decide) (by decide)
      (by decide)).1⟩

/-! ### Helper lemmas for the account handlers -/

theorem count_admins_cons (a : Account) (t : List Account) :
    count_admins (a :: t)
      = (if a.isAdmin = true then 1 else 0) + count_admins t := by
  cases h : a.isAdmin with
  | false => simp [count_admins, List.filter_cons, h]
  | true =>
    simp only [count_admins, List.filter_cons, h, if_pos rfl]
    simp [Nat.add_comm]

theorem update_admin_absent {l : List Account} {n : String} {f : Bool}
    (h : ∀ u ∈ l, u.username ≠ n) : update_user_admin l n f = l := by
  induction l with
  | nil => rfl
  | cons a t ih =>
    have ha : ¬ (a.username == n) = true := by
      simp only [beq_iff_eq]
      exact h a (List.mem_cons_self a t)
    have iht := ih (fun u hu => h u (List.mem_cons_of_mem a hu))
    simp only [update_user_admin, List.map_cons] at iht ⊢
    rw [if_neg ha, iht]

theorem delete_user_absent {l : List Account} {n : String}
    (h : ∀ u ∈ l, u.username ≠ n) : delete_user l n = l := by
  apply List.filter_eq_self.mpr
  intro u hu
  simp only [bne_iff_ne]
  exact h u hu

theorem nodup_head_absent {a : Account} {t : List Account} {n : String}
    (hn : a.username ∉ t.map (fun u => u.username)) (han : a.username = n) :
    ∀ v ∈ t, v.username ≠ n := by
  intro v hv hvn
  apply hn
  rw [han, ← hvn]
  exact List.mem_map_of_mem _ hv

theorem count_admins_le_promote (l : List Account) (n : String) :
    count_admins l ≤ count_admins (update_user_admin l n true) := by
  induction l with
  | nil => simp [update_user_admin, count_admins]
  | cons a t ih =>
    simp only [update_user_admin, List.map_cons] at ih ⊢
    by_cases h : (a.username == n) = true
    · rw [if_pos h, count_admins_cons, count_admins_cons]
      have hhead : ({ a with isAdmin := true } : Account).isAdmin = true := rfl
      rw [hhead, if_pos rfl]
      have hb : (if a.isAdmin = true then 1 else 0) ≤ 1 := by
        cases a.isAdmin <;> simp
      omega
    · rw [if_neg h, count_admins_cons, count_admins_cons]
      omega

theorem count_admins_demote_nonadmin {l : List Account} {n : String}
    {tg : Account}
    (hn : (l.map (fun u => u.username)).Nodup)
    (hf : l.find? (fun u => u.username == n) = some tg)
    (ht : tg.isAdmin = false) :
    count_admins (update_user_admin l n false) = count_admins l := by
  induction l with
  | nil => simp at hf
  | cons a t ih =>
    rw [List.map_cons, List.nodup_cons] at hn
    by_cases h : (a.username == n) = true
    · have htg : tg = a := by
        rw [find?_cons_pos (fun u : Account => u.username == n) h] at hf
        exact (Option.some.inj hf).symm
      have habs := nodup_head_absent hn.1 (beq_iff_eq.mp h)
      simp only [update_user_admin, List.map_cons]
      rw [if_pos h]
      rw [show (t.map fun u => if (u.username == n) = true then { u with isAdmin := false } else u) = update_user_admin t n false from rfl]
      rw [update_admin_absent habs, count_admins_cons, count_admins_cons]
      have ha2 : a.isAdmin = false := htg ▸ ht
      simp [ha2]
    · have hf' : t.find? (fun u => u.username == n) = some tg := by
        rw [find?_cons_neg (fun u : Account => u.username == n) h] at hf
        exact hf
      have iht := ih hn.2 hf'
      simp only [update_user_admin, List.map_cons] at iht ⊢
      rw [if_neg h, count_admins_cons, count_admins_cons]
      omega

theorem count_admins_demote_le {l : List Account} {n : String}
    (hn : (l.map (fun u => u.username)).Nodup) :
    count_admins l ≤ count_admins (update_user_admin l n false) + 1 := by
  induction l with
  | nil => simp [update_user_admin, count_admins]
  | cons a t ih =>
    rw [List.map_cons, List.nodup_cons] at hn
    by_cases h : (a.username == n) = true
    · have habs := nodup_head_absent hn.1 (beq_iff_eq.mp h)
      simp only [update_user_admin, List.map_cons]
      rw [if_pos h]
      rw [show (t.map fun u => if (u.username == n) = true then { u with isAdmin := false } else u) = update_user_admin t n false from rfl]
      rw [update_admin_absent habs, count_admins_cons, count_admins_cons]
      cases ha : a.isAdmin <;> simp [ha]
      omega
    · have iht := ih hn.2
      simp only [update_user_admin, List.map_cons] at iht ⊢
      rw [if_neg h, count_admins_cons, count_admins_cons]
      omega

theorem count_admins_delete_nonadmin {l : List Account} {n : String}
    {tg : Account}
    (hn : (l.map (fun u => u.username)).Nodup)
    (hf : l.find? (fun u => u.username == n) = some tg)
    (ht : tg.isAdmin = false) :
    count_admins (delete_user l n) = count_admins l := by
  induction l with
  | nil => simp at hf
  | cons a t ih =>
    rw [List.map_cons, List.nodup_cons] at hn
    by_cases h : (a.username == n) = true
    · have htg : tg = a := by
        rw [find?_cons_pos (fun u : Account => u.username == n) h] at hf
        exact (Option.some.inj hf).symm
      have habs := nodup_head_absent hn.1 (beq_iff_eq.mp h)
      have hbne : (a.username != n) = false := by
        simp [bne, h]
      simp only [delete_user, List.filter_cons]
      rw [hbne]
      rw [show (t.filter fun u => u.username != n) = delete_user t n from rfl]
      rw [delete_user_absent habs, count_admins_cons]
      have ha2 : a.isAdmin = false := htg ▸ ht
      simp [ha2]
    · have hf' : t.find? (fun u => u.username == n) = some tg := by
        rw [find?_cons_neg (fun u : Account => u.username == n) h] at hf
        exact hf
      have hbne : (a.username != n) = true := by
        simp only [bne_iff_ne]
        intro hc
        exact h (beq_iff_eq.mpr hc)
      have iht := ih hn.2 hf'
      simp only [delete_user, List.filter_cons] at iht ⊢
      rw [hbne, if_pos rfl, count_admins_cons, count_admins_cons]
      omega

theorem count_admins_delete_le {l : List Account} {n : String}
    (hn : (l.map (fun u => u.username)).Nodup) :
    count_admins l ≤ count_admins (delete_user l n) + 1 := by
  induction l with
  | nil => simp [delete_user, count_admins]
  | cons a t ih =>
    rw [List.map_cons, List.nodup_cons] at hn
    by_cases h : (a.username == n) = true
    · have habs := nodup_head_absent hn.1 (beq_iff_eq.mp h)
      have hbne : (a.username != n) = false := by
        simp [bne, h]
      simp only [delete_user, List.filter_cons]
      rw [hbne]
      rw [show (t.filter fun u => u.username != n) = delete_user t n from rfl]
      rw [delete_user_absent habs, count_admins_cons]
      cases ha : a.isAdmin <;> simp [ha]
      omega
    · have hbne : (a.username != n) = true := by
        simp only [bne_iff_ne]
        intro hc
        exact h (beq_iff_eq.mpr hc)
      have iht := ih hn.2
      simp only [delete_user, List.filter_cons] at iht ⊢
      rw [hbne, if_pos rfl, count_admins_cons, count_admins_cons]
      omega

/-! ### Claim C9 -/

/-- C9, counterexample to the claim as stated: demoting or deleting the
sole admin is refused with HTTP 400 Bad Request, not with the 403
Forbidden kind — 403 is what a non-admin actor receives from
require_admin, a different condition. -/
theorem c9_last_admin_errors_badrequest :
    admin_update_role [⟨1, "admin", true⟩] ⟨1, "admin", true⟩ "admin" false
      = .error .badRequest
    ∧ admin_delete_user [⟨1, "admin", true⟩] ⟨1, "admin", true⟩ "admin"
      = .error .badRequest
    ∧ (Except.error ApiError.badRequest : Except ApiError (List Account))
      ≠ .error .forbidden
    ∧ admin_update_role [⟨1, "admin", true⟩] ⟨2, "eve", false⟩ "admin" false
      = .error .forbidden := by
  refine ⟨?_, ?_, by decide, ?_⟩ <;> rfl

/-- C9 as amended: for every account table with at least one admin and
distinct usernames, the role-change and delete handlers leave at least one
admin in place — on success as well as on error; demoting or deleting the
last remaining admin (an admin actor, one admin in the table, the target
admin) is refused with the 400 Bad Request error, leaving the table
unchanged; the Forbidden 403 error is reserved for non-admin actors. -/
theorem c9_admin_invariant_preserved (users : List Account) (actor : Account)
    (uname : String) (flag : Bool)
    (h1 : 1 ≤ count_admins users)
    (hn : (users.map (fun u => u.username)).Nodup) :
    1 ≤ count_admins (stateAfter users (admin_update_role users actor uname flag))
    ∧ 1 ≤ count_admins (stateAfter users (admin_delete_user users actor uname))
    ∧ (actor.isAdmin = true → count_admins users = 1 →
        (∃ tg : Account, get_user_by_username users (pyStrip uname) = some tg
          ∧ tg.isAdmin = true) →
        admin_update_role users actor uname false = .error .badRequest
        ∧ admin_delete_user users actor uname = .error .badRequest) := by
  refine ⟨?_, ?_, ?_⟩
  · unfold admin_update_role
    by_cases hA : actor.isAdmin = false
    · rw [if_pos hA]
      exact h1
    · rw [if_neg hA]
      by_cases hE : pyStrip uname = ""
      · rw [if_pos hE]
        exact h1
      · rw [if_neg hE]
        cases hfind : get_user_by_username users (pyStrip uname) with
        | none => exact h1
        | some tg =>
          dsimp only
          by_cases hSelf : flag = false ∧ pyStrip uname = actor.username
          · rw [if_pos hSelf]
            exact h1
          · rw [if_neg hSelf]
            by_cases hLast : flag = false ∧ tg.isAdmin = true
                ∧ count_admins users ≤ 1
            · rw [if_pos hLast]
              exact h1
            · rw [if_neg hLast]
              show 1 ≤ count_admins (update_user_admin users (pyStrip uname) flag)
              cases hF : flag with
              | true =>
                exact le_trans h1 (count_admins_le_promote users (pyStrip uname))
              | false =>
                have hfind' : users.find?
                    (fun u => u.username == pyStrip uname) = some tg := hfind
                cases hT : tg.isAdmin with
                | false =>
                  rw [count_admins_demote_nonadmin hn hfind' hT]
                  exact h1
                | true =>
                  have hcnt : 2 ≤ count_admins users := by
                    by_contra hc
                    push_neg at hc
                    exact hLast ⟨hF, hT, by omega⟩
                  have hle := count_admins_demote_le (n := pyStrip uname) hn
                  omega
  · unfold admin_delete_user
    by_cases hA : actor.isAdmin = false
    · rw [if_pos hA]
      exact h1
    · rw [if_neg hA]
      by_cases hE : pyStrip uname = ""
      · rw [if_pos hE]
        exact h1
      · rw [if_neg hE]
        by_cases hSelf : pyStrip uname = actor.username
        · rw [if_pos hSelf]
          exact h1
        · rw [if_neg hSelf]
          cases hfind : get_user_by_username users (pyStrip uname) with
          | none => exact h1
          | some tg =>
            dsimp only
            by_cases hLast : tg.isAdmin = true ∧ count_admins users ≤ 1
            · rw [if_pos hLast]
              exact h1
            · rw [if_neg hLast]
              show 1 ≤ count_admins (delete_user users (pyStrip uname))
              have hfind' : users.find?
                  (fun u => u.username == pyStrip uname) = some tg := hfind
              cases hT : tg.isAdmin with
              | false =>
                rw [count_admins_delete_nonadmin hn hfind' hT]
                exact h1
              | true =>
                have hcnt : 2 ≤ count_admins users := by
                  by_contra hc
                  push_neg at hc
                  exact hLast ⟨hT, by omega⟩
                have hle := count_admins_delete_le (n := pyStrip uname) hn
                omega
  · intro hA hcnt h3
    obtain ⟨tg, hfind, htg⟩ := h3
    have hA' : ¬ actor.isAdmin = false := by rw [hA]; simp
    constructor
    · unfold admin_update_role
      rw [if_neg hA']
      by_cases hE : pyStrip uname = ""
      · rw [if_pos hE]
      · rw [if_neg hE]
        simp only [hfind]
        by_cases hSelf : pyStrip uname = actor.username
        · rw [if_pos ⟨trivial, hSelf⟩]
        · rw [if_neg (fun hx => hSelf hx.2)]
          rw [if_pos ⟨trivial, htg, by omega⟩]
    · unfold admin_delete_user
      rw [if_neg hA']
      by_cases hE : pyStrip uname = ""
      · rw [if_pos hE]
      · rw [if_neg hE]
        by_cases hSelf : pyStrip uname = actor.username
        · rw [if_pos hSelf]
        · rw [if_neg hSelf]
          simp only [hfind]
          rw [if_pos ⟨htg, by omega⟩]

/-- Witness for C9 at a concrete table: one admin and one regular account;
promoting the regular account and deleting it both leave an admin. -/
theorem c9_admin_invariant_preserved_witness :
    1 ≤ count_admins [⟨1, "root", true⟩, ⟨2, "bob", false⟩]
    ∧ (([⟨1, "root", true⟩, ⟨2, "bob", false⟩] : List Account).map
        (fun u => u.username)).Nodup
    ∧ 1 ≤ count_admins (stateAfter [⟨1, "root", true⟩, ⟨2, "bob", false⟩]
        (admin_update_role [⟨1, "root", true⟩, ⟨2, "bob", false⟩]
          ⟨1, "root", true⟩ "bob" true))
    ∧ 1 ≤ count_admins (stateAfter [⟨1, "root", true⟩, ⟨2, "bob", false⟩]
        (admin_delete_user [⟨1, "root", true⟩, ⟨2, "bob", false⟩]
          ⟨1, "root", true⟩ "bob")) :=
  ⟨by decide, by decide,
   (c9_admin_invariant_preserved [⟨1, "root", true⟩, ⟨2, "bob", false⟩]
      ⟨1, "root", true⟩ "bob" true (by decide) (by decide)).1,
   (c9_admin_invariant_preserved [⟨1, "root", true⟩, ⟨2, "bob", false⟩]
      ⟨1, "root", true⟩ "bob" true (by decide) (by decide)).2.1⟩

end Croco
